import Mathlib

set_option maxRecDepth 8192

/-!
Shallow embedding of `src/fuse/__main__.py` (repository `cwpearson/fused-gtest`).

The program flattens a tree of C/C++ files connected by `#include` directives
into one output file.  The embedding models:

* paths (`FPath`) as an absolute-flag plus a list of components, mirroring the
  `pathlib.Path` operations the program uses (`/`-join, `.parent`, `.resolve()`,
  `.suffix`, `.stem`, `str()`), with `resolve` modelled as absolutisation
  against a fixed working directory (symlink and dot-segment normalisation is
  not modelled: the program relies on no such behaviour);
* the on-disk state (`FileSystem`) as an existence predicate plus a partial
  read function, standing for `Path.exists()` and `open(...).read()`;
* the engine class `CppFusioner` as an immutable configuration record plus an
  explicit mutable state record `FuseState` (its `processing_stack` and
  `already_inlined` sets, modelled as lists with set-like insert);
* `process_file` as a fuel-indexed state-passing function returning
  `Except FuseError ProcessedFile × FuseState`; the Python `try/finally` is an
  explicit pop of `processing_stack` on every exit path, and `FuseError.outOfFuel`
  is the fuel artefact of the embedding (unbounded recursion in the source);
* the regular expression `re.match(r'#include\s*[<"]([^>"]+)[>"]', line)` as an
  explicit character-list scanner (`include_match`); `re.match` anchors at the
  start of the line, `\s` is modelled as ASCII whitespace.

All string manipulation is done on `List Char` with hand-rolled structural
functions (`split_on_char`, `join_sep`, ...) mirroring the Python string
operations (`str.split`, `str.join`, ...), so the kernel can evaluate every
definition on concrete inputs.
-/

/-- The `FileType` enum of the source: `HEADER`, `SOURCE`, `UNKNOWN`. -/
inductive FileType where
  | HEADER
  | SOURCE
  | UNKNOWN
  deriving DecidableEq

/-- A filesystem path: `pathlib.PurePosixPath` modelled as an absolute flag and
a list of name components. -/
structure FPath where
  absolute : Bool
  components : List String
  deriving DecidableEq

/-- The index (from the front) of the last `'.'` in a list of characters, if
any; used to mirror `name.rfind('.')` from CPython's `pathlib`. -/
def last_dot_idx : List Char → Option Nat
  | [] => none
  | c :: cs =>
    match last_dot_idx cs with
    | some i => some (i + 1)
    | none => if c = '.' then some 0 else none

/-- The final path component, `Path.name` (empty when there is none). -/
def path_name (p : FPath) : String :=
  p.components.getLast?.getD ""

/-- `Path.suffix` on a single name, per CPython: `name[i:]` for the last dot
position `i` when `0 < i < len(name) - 1`, else the empty string. -/
def suffix_of_name (name : String) : String :=
  let cs := name.toList
  match last_dot_idx cs with
  | some i => if 0 < i ∧ i < cs.length - 1 then String.mk (cs.drop i) else ""
  | none => ""

/-- `Path.stem`: the final component without its suffix, per CPython. -/
def path_stem (path : FPath) : String :=
  let name := path_name path
  let cs := name.toList
  match last_dot_idx cs with
  | some i => if 0 < i ∧ i < cs.length - 1 then String.mk (cs.take i) else name
  | none => name

/-- `str.lower`, restricted to the ASCII case mapping (the program only applies
it to file extensions). -/
def lower_str (s : String) : String :=
  String.mk (s.toList.map Char.toLower)

/-- `str.upper`, restricted to the ASCII case mapping (the program only applies
it to the stem of the input file name). -/
def upper_str (s : String) : String :=
  String.mk (s.toList.map Char.toUpper)

/-- `get_file_type` from the source: classify a path by its lower-cased
extension. -/
def get_file_type (path : FPath) : FileType :=
  let ext := lower_str (suffix_of_name (path_name path))
  if ext ∈ [".h", ".hpp", ".hxx", ".hh"] then FileType.HEADER
  else if ext ∈ [".c", ".cpp", ".cxx", ".cc"] then FileType.SOURCE
  else FileType.UNKNOWN

/-- Split a character list at every occurrence of `sep`, mirroring Python's
`str.split(sep)` (so the empty input gives one empty field). -/
def split_on_char (sep : Char) : List Char → List (List Char)
  | [] => [[]]
  | c :: cs =>
    if c = sep then [] :: split_on_char sep cs
    else
      match split_on_char sep cs with
      | [] => [[c]]
      | l :: ls => (c :: l) :: ls

/-- `content.split('\n')` from the source. -/
def split_lines (content : String) : List String :=
  (split_on_char '\n' content.toList).map (fun l => String.mk l)

/-- Interpose `sep` between the entries, mirroring Python's `sep.join(...)`. -/
def join_sep (sep : String) : List String → String
  | [] => ""
  | [x] => x
  | x :: xs => x ++ sep ++ join_sep sep xs

/-- `'\n'.join(processed_lines)` from the source. -/
def join_nl (ls : List String) : String :=
  join_sep "\n" ls

/-- `pathlib`'s `/` between a directory and a (relative) reference string: the
reference is split on `'/'` and its components are appended. -/
def FPath.joinRef (p : FPath) (include_name : String) : FPath :=
  ⟨p.absolute, p.components ++ (split_on_char '/' include_name.toList).map (fun l => String.mk l)⟩

/-- `Path.parent`: drop the final component. -/
def FPath.parent (p : FPath) : FPath :=
  ⟨p.absolute, p.components.dropLast⟩

/-- `Path.resolve()`: make the path absolute against the process working
directory `cwd` (symlink and dot-segment normalisation not modelled). -/
def resolve_path (cwd : List String) (p : FPath) : FPath :=
  if p.absolute then p else ⟨true, cwd ++ p.components⟩

/-- `str(path)` for a POSIX path, used by the f-string that prints the
provenance marker. -/
def path_display (p : FPath) : String :=
  if p.absolute then "/" ++ join_sep "/" p.components
  else if p.components = [] then "." else join_sep "/" p.components

/-- The characters matched by the regex class `\s` (modelled as ASCII
whitespace). -/
def isSpaceChar (c : Char) : Bool :=
  c = ' ' || c = '\t' || c = '\n' || c = '\x0b' || c = '\x0c' || c = '\r'

/-- The characters of the opening-delimiter class `[<"]`. -/
def isOpenerChar (c : Char) : Bool :=
  c = '<' || c = '"'

/-- The characters of the closing-delimiter class `[>"]`; the reference class
`[^>"]` is its complement. -/
def isCloserChar (c : Char) : Bool :=
  c = '>' || c = '"'

/-- The complement of `isCloserChar`, i.e. the class `[^>"]`. -/
def not_closer (c : Char) : Bool :=
  !isCloserChar c

/-- Strip an expected literal character sequence off the front of the input,
returning the remainder on success. -/
def dropLiteralChars : List Char → List Char → Option (List Char)
  | [], cs => some cs
  | _ :: _, [] => none
  | p :: ps, c :: cs => if c = p then dropLiteralChars ps cs else none

/-- The characters of the literal token `#include`. -/
def include_token : List Char :=
  ['#', 'i', 'n', 'c', 'l', 'u', 'd', 'e']

/-- The scanner for `re.match(r'#include\s*[<"]([^>"]+)[>"]', line)` on a
character list, returning capture group 1 (the reference text).  `re.match`
anchors at the start of the string; the whitespace and reference repetitions
are deterministic maximal munch (backtracking can never succeed, since the
follow-set of each repetition is disjoint from its character class). -/
def include_match_chars (cs : List Char) : Option (List Char) :=
  match dropLiteralChars include_token cs with
  | none => none
  | some rest =>
    match rest.dropWhile isSpaceChar with
    | [] => none
    | d :: rest₂ =>
      if isOpenerChar d then
        match rest₂.dropWhile not_closer with
        | [] => none
        | _ :: _ =>
          match rest₂.takeWhile not_closer with
          | [] => none
          | r :: rs => some (r :: rs)
      else none

/-- `include_match` from the source: the regex match on one line, giving the
extracted reference text when the line is recognised as an inclusion
directive. -/
def include_match (line : String) : Option String :=
  (include_match_chars line.toList).map (fun cs => String.mk cs)

/-- `'<' in line` from the source: whether the character `'<'` occurs anywhere
on the line. -/
def line_has_angle (line : String) : Bool :=
  line.toList.contains '<'

/-- `include_name.startswith(pre)` on character lists. -/
def starts_with_chars : List Char → List Char → Bool
  | [], _ => true
  | _ :: _, [] => false
  | p :: ps, c :: cs => (c = p) && starts_with_chars ps cs

/-- The on-disk state: `Path.exists()` and `open(path).read()` (`read` is
`none` when opening or reading the file raises). -/
structure FileSystem where
  pathExists : FPath → Bool
  read : FPath → Option String

/-- The immutable part of the `CppFusioner` object: its constructor arguments
plus the ambient working directory used by `Path.resolve()`. -/
structure CppFusioner where
  fs : FileSystem
  cwd : List String
  include_paths : List FPath
  inline_headers : Bool
  inline_sources : Bool

/-- The mutable fields of the `CppFusioner` object.  Both Python sets are
modelled as duplicate-free-by-use lists. -/
structure FuseState where
  processing_stack : List FPath
  already_inlined : List FPath
  deriving DecidableEq

/-- The state of a freshly constructed `CppFusioner`: both sets empty. -/
def init_state : FuseState :=
  ⟨[], []⟩

/-- The `ProcessedFile` dataclass of the source. -/
structure ProcessedFile where
  path : FPath
  content : String
  type : FileType
  deriving DecidableEq

/-- The errors a run can produce: the engine's circular-dependency exception,
the propagated failure of `open`/`read`, and the fuel artefact of the
embedding (the source recursion is unbounded). -/
inductive FuseError where
  | circular (path : FPath)
  | readFail (path : FPath)
  | outOfFuel
  deriving DecidableEq

/-- The search loop over `self.include_paths` inside `find_include_file`:
return the first `include_path / include_name` that exists. -/
def search_include_dirs (fs : FileSystem) (include_name : String) : List FPath → Option FPath
  | [] => none
  | d :: ds =>
    let full_path := d.joinRef include_name
    if fs.pathExists full_path then some full_path else search_include_dirs fs include_name ds

/-- `find_include_file` from the source: check `current_dir / include_name`
first, then each configured include directory in order. -/
def find_include_file (ctx : CppFusioner) (include_name : String) (current_dir : FPath) : Option FPath :=
  let local_path := current_dir.joinRef include_name
  if ctx.fs.pathExists local_path then some local_path
  else search_include_dirs ctx.fs include_name ctx.include_paths

/-- `include_path in self.already_inlined` from the source, where
`include_path` may be `None` (and `None` is never a member of a set of
paths). -/
def opt_mem_inlined (include_path : Option FPath) (l : List FPath) : Bool :=
  match include_path with
  | some q => decide (q ∈ l)
  | none => false

/-- `self.already_inlined.add(q)`: set insertion (a no-op when already a
member). -/
def add_inlined (q : FPath) (l : List FPath) : List FPath :=
  if q ∈ l then l else q :: l

/-- The shared body of the two inlining branches of the source: recursively
process the found file (errors propagate), emit the provenance marker line and
the processed content, and add the found path to `already_inlined`. -/
def do_inline (rec : FPath → FuseState → Except FuseError ProcessedFile × FuseState)
    (q : FPath) (s : FuseState) : Except FuseError (List String) × FuseState :=
  match rec q s with
  | (Except.ok included_file, s₁) =>
    (Except.ok ["// Inlined from: " ++ path_display q, included_file.content],
     ⟨s₁.processing_stack, add_inlined q s₁.already_inlined⟩)
  | (Except.error e, s₁) => (Except.error e, s₁)

/-- The decision taken for a recognised quote-side directive (the code after
the `'<' in line` test): resolve, elide when already inlined, then the ordered
decision chain of the source. -/
def quote_include_step (ctx : CppFusioner)
    (rec : FPath → FuseState → Except FuseError ProcessedFile × FuseState)
    (current_dir : FPath) (line include_name : String) (s : FuseState) :
    Except FuseError (List String) × FuseState :=
  let include_path := find_include_file ctx include_name current_dir
  if opt_mem_inlined include_path s.already_inlined then (Except.ok [], s)
  else
    match include_path with
    | some q =>
      if ctx.inline_headers ∧ get_file_type q = FileType.HEADER then
        do_inline rec q s
      else if ctx.inline_sources ∧ (get_file_type q = FileType.SOURCE ∨
          include_name = "src/gtest-internal-inl.h" ∨ include_name = "gtest/gtest-spi.h") then
        do_inline rec q s
      else if starts_with_chars "gtest/".toList include_name.toList ∧ include_name ≠ "gtest/gtest.h" then
        (Except.ok ["//" ++ line], s)
      else
        (Except.ok [line], s)
    | none => (Except.ok [line], s)

/-- One iteration of the `for line in content.split('\n')` loop: the list of
lines this iteration appends to `processed_lines`, plus the state after it. -/
def line_step (ctx : CppFusioner)
    (rec : FPath → FuseState → Except FuseError ProcessedFile × FuseState)
    (current_dir : FPath) (line : String) (s : FuseState) :
    Except FuseError (List String) × FuseState :=
  match include_match line with
  | none => (Except.ok [line], s)
  | some include_name =>
    if line_has_angle line then (Except.ok [line], s)
    else quote_include_step ctx rec current_dir line include_name s

/-- The whole line loop of `process_file`, producing `processed_lines`. -/
def process_lines (ctx : CppFusioner)
    (rec : FPath → FuseState → Except FuseError ProcessedFile × FuseState)
    (current_dir : FPath) : List String → FuseState → Except FuseError (List String) × FuseState
  | [], s => (Except.ok [], s)
  | line :: rest, s =>
    match line_step ctx rec current_dir line s with
    | (Except.ok out, s₁) =>
      (match process_lines ctx rec current_dir rest s₁ with
       | (Except.ok outs, s₂) => (Except.ok (out ++ outs), s₂)
       | (Except.error e, s₂) => (Except.error e, s₂))
    | (Except.error e, s₁) => (Except.error e, s₁)

/-- The part of `process_file` inside the `try/finally`, entered with
`abs_path` already pushed on `processing_stack`: read the file, process the
lines, and pop `abs_path` on every exit path (the `finally`). -/
def process_file_body (ctx : CppFusioner)
    (rec : FPath → FuseState → Except FuseError ProcessedFile × FuseState)
    (abs_path : FPath) (s : FuseState) : Except FuseError ProcessedFile × FuseState :=
  match ctx.fs.read abs_path with
  | none => (Except.error (FuseError.readFail abs_path), ⟨s.processing_stack.erase abs_path, s.already_inlined⟩)
  | some content =>
    match process_lines ctx rec abs_path.parent (split_lines content) s with
    | (Except.ok processed_lines, s₂) =>
      (Except.ok ⟨abs_path, join_nl processed_lines, get_file_type abs_path⟩,
       ⟨s₂.processing_stack.erase abs_path, s₂.already_inlined⟩)
    | (Except.error e, s₂) => (Except.error e, ⟨s₂.processing_stack.erase abs_path, s₂.already_inlined⟩)

/-- `process_file` from the source, fuel-indexed: resolve the argument, raise
the circular-dependency error if the absolute path is already on the stack
(before any other work), otherwise push it and run the body. -/
def process_file (ctx : CppFusioner) : Nat → FPath → FuseState → Except FuseError ProcessedFile × FuseState
  | 0, _, s => (Except.error FuseError.outOfFuel, s)
  | fuel + 1, file_path, s =>
    let abs_path := resolve_path ctx.cwd file_path
    if abs_path ∈ s.processing_stack then (Except.error (FuseError.circular abs_path), s)
    else process_file_body ctx (process_file ctx fuel) abs_path ⟨abs_path :: s.processing_stack, s.already_inlined⟩

/-- The guard token `f"FUSED_{input_path.stem.upper()}_H"` of `fuse_file`. -/
def guard_name (input_path : FPath) : String :=
  "FUSED_" ++ upper_str (path_stem input_path) ++ "_H"

/-- `fuse_file` from the source, returning the output text instead of writing
it: process the input from a fresh state, wrap header-kind results in the
inclusion guard, and return everything else verbatim. -/
def fuse_file (ctx : CppFusioner) (fuel : Nat) (input_file : FPath) : Except FuseError String :=
  match process_file ctx fuel input_file init_state with
  | (Except.ok processed, _) =>
    if processed.type = FileType.HEADER then
      Except.ok (join_nl
        ["#ifndef " ++ guard_name input_file,
         "#define " ++ guard_name input_file,
         "",
         processed.content,
         "",
         "#endif  // " ++ guard_name input_file])
    else Except.ok processed.content
  | (Except.error e, _) => Except.error e

/-- The inlining policy of the decision chain in `process_file`: the condition
under which a resolved quote-side include is recursively inlined. -/
def inline_policy (ctx : CppFusioner) (include_name : String) (q : FPath) : Prop :=
  (ctx.inline_headers ∧ get_file_type q = FileType.HEADER) ∨
  (ctx.inline_sources ∧ (get_file_type q = FileType.SOURCE ∨
    include_name = "src/gtest-internal-inl.h" ∨ include_name = "gtest/gtest-spi.h"))

instance (ctx : CppFusioner) (include_name : String) (q : FPath) : Decidable (inline_policy ctx include_name q) := by
  unfold inline_policy
  infer_instance

/-- The include-graph edge relation of a configuration: `IncludeEdge ctx p q`
holds when the file at (resolved) path `p` has a line that is recognised as a
quote-side directive whose resolved candidate the policy would recursively
inline, and `q` is that candidate's absolute form. -/
def IncludeEdge (ctx : CppFusioner) (p q : FPath) : Prop :=
  ∃ c line include_name cand,
    ctx.fs.read p = some c ∧
    line ∈ split_lines c ∧
    include_match line = some include_name ∧
    line_has_angle line = false ∧
    find_include_file ctx include_name p.parent = some cand ∧
    inline_policy ctx include_name cand ∧
    q = resolve_path ctx.cwd cand

/-- Concrete scenario for the cycle claims: `/r/a.h` includes `"b.h"` and
`/r/b.h` includes `"a.h"`. -/
def pA : FPath := ⟨true, ["r", "a.h"]⟩

/-- The path `/r/b.h` of the concrete scenarios. -/
def pB : FPath := ⟨true, ["r", "b.h"]⟩

/-- Filesystem of the cyclic scenario: `a.h` and `b.h` include each other. -/
def fsAB : FileSystem where
  pathExists := fun p => p = pA || p = pB
  read := fun p =>
    if p = pA then some "#include \"b.h\""
    else if p = pB then some "#include \"a.h\""
    else none

/-- Engine configuration for the cyclic scenario (header inlining on, as the
`__main__` block enables for a header-kind input). -/
def ctxAB : CppFusioner where
  fs := fsAB
  cwd := ["r"]
  include_paths := []
  inline_headers := true
  inline_sources := false

/-- Filesystem of the acyclic scenario: `a.h` includes `"b.h"` twice, `b.h`
has no directives. -/
def fsC : FileSystem where
  pathExists := fun p => p = pA || p = pB
  read := fun p =>
    if p = pA then some "#include \"b.h\"\n#include \"b.h\"\nint a;"
    else if p = pB then some "int b;"
    else none

/-- Engine configuration for the acyclic scenario. -/
def ctxC : CppFusioner where
  fs := fsC
  cwd := ["r"]
  include_paths := []
  inline_headers := true
  inline_sources := false

/-- Scenario for the `already_inlined` absoluteness claim: the input `/w/a.h`
in a run whose search path holds the relative directory `inc`. -/
def pW : FPath := ⟨true, ["w", "a.h"]⟩

/-- The relative search-path entry `inc`. -/
def pIncRel : FPath := ⟨false, ["inc"]⟩

/-- The relative candidate `inc/b.h` produced by the resolver. -/
def pBrel : FPath := ⟨false, ["inc", "b.h"]⟩

/-- The absolute form `/w/inc/b.h` of that candidate. -/
def pBabs : FPath := ⟨true, ["w", "inc", "b.h"]⟩

/-- Filesystem of the relative-search-path scenario: `/w/a.h` includes
`"b.h"`, which exists only as `inc/b.h` relative to the working directory
`/w`. -/
def fs10 : FileSystem where
  pathExists := fun p => p = pW || p = pBrel || p = pBabs
  read := fun p =>
    if p = pW then some "#include \"b.h\""
    else if p = pBabs then some "int b;"
    else none

/-- Engine configuration with a relative search-path entry. -/
def ctx10 : CppFusioner where
  fs := fs10
  cwd := ["w"]
  include_paths := [pIncRel]
  inline_headers := true
  inline_sources := false

/-- Declarative shape of a recognised inclusion directive, written from the
amended specification sentence: the literal token `#include` at the very
start of the line (no leading whitespace), optional whitespace, an opening
delimiter (`<` or `"`), a nonempty reference containing neither `>` nor `"`,
and a closing delimiter (`>` or `"`) that need not match the opening one;
the rest of the line is arbitrary. -/
def DirectiveShape (cs ref : List Char) : Prop :=
  ∃ ws d e rest,
    cs = include_token ++ ws ++ d :: (ref ++ e :: rest) ∧
    (∀ c ∈ ws, isSpaceChar c = true) ∧
    isOpenerChar d = true ∧
    ref ≠ [] ∧
    (∀ c ∈ ref, isCloserChar c = false) ∧
    isCloserChar e = true

/-- Scenario for the termination witness: a single file `/r/c.h` with empty
content (no directives). -/
def pC3 : FPath := ⟨true, ["r", "c.h"]⟩

/-- Filesystem holding only the empty file `/r/c.h`. -/
def fs3 : FileSystem where
  pathExists := fun p => p = pC3
  read := fun p => if p = pC3 then some "" else none

/-- Engine configuration over the single-file filesystem. -/
def ctx3 : CppFusioner where
  fs := fs3
  cwd := ["r"]
  include_paths := []
  inline_headers := true
  inline_sources := false

theorem subset_add_inlined (q : FPath) (l : List FPath) : l ⊆ add_inlined q l := by
  unfold add_inlined
  split
  · exact List.Subset.refl l
  · exact List.subset_cons_self q l

theorem mem_add_inlined_self (q : FPath) (l : List FPath) : q ∈ add_inlined q l := by
  unfold add_inlined
  split
  · assumption
  · exact List.mem_cons_self q l

theorem do_inline_stack (rec : FPath → FuseState → Except FuseError ProcessedFile × FuseState)
    (hrec : ∀ q s, ((rec q s).2).processing_stack = s.processing_stack)
    (q : FPath) (s : FuseState) :
    ((do_inline rec q s).2).processing_stack = s.processing_stack := by
  have h := hrec q s
  unfold do_inline
  rcases hq : rec q s with ⟨r, s₁⟩
  rw [hq] at h
  cases r <;> simpa using h

theorem quote_include_step_stack (ctx : CppFusioner)
    (rec : FPath → FuseState → Except FuseError ProcessedFile × FuseState)
    (hrec : ∀ q s, ((rec q s).2).processing_stack = s.processing_stack)
    (current_dir : FPath) (line include_name : String) (s : FuseState) :
    ((quote_include_step ctx rec current_dir line include_name s).2).processing_stack
      = s.processing_stack := by
  simp only [quote_include_step]
  split
  · rfl
  · split
    · split
      · exact do_inline_stack rec hrec _ _
      · split
        · exact do_inline_stack rec hrec _ _
        · split
          · rfl
          · rfl
    · rfl

theorem line_step_stack (ctx : CppFusioner)
    (rec : FPath → FuseState → Except FuseError ProcessedFile × FuseState)
    (hrec : ∀ q s, ((rec q s).2).processing_stack = s.processing_stack)
    (current_dir : FPath) (line : String) (s : FuseState) :
    ((line_step ctx rec current_dir line s).2).processing_stack = s.processing_stack := by
  simp only [line_step]
  split
  · rfl
  · split
    · rfl
    · exact quote_include_step_stack ctx rec hrec _ _ _ _

theorem process_lines_stack (ctx : CppFusioner)
    (rec : FPath → FuseState → Except FuseError ProcessedFile × FuseState)
    (hrec : ∀ q s, ((rec q s).2).processing_stack = s.processing_stack)
    (current_dir : FPath) :
    ∀ (lines : List String) (s : FuseState),
      ((process_lines ctx rec current_dir lines s).2).processing_stack = s.processing_stack := by
  intro lines
  induction lines with
  | nil => intro s; rfl
  | cons line rest ih =>
    intro s
    have h₁ := line_step_stack ctx rec hrec current_dir line s
    simp only [process_lines]
    rcases hstep : line_step ctx rec current_dir line s with ⟨r₁, s₁⟩
    rw [hstep] at h₁
    cases r₁ with
    | error e => simpa using h₁
    | ok out =>
      have h₂ := ih s₁
      rcases hrest : process_lines ctx rec current_dir rest s₁ with ⟨r₂, s₂⟩
      rw [hrest] at h₂
      dsimp only
      rw [hrest]
      cases r₂ <;> simpa using h₂.trans h₁

theorem process_file_body_stack (ctx : CppFusioner)
    (rec : FPath → FuseState → Except FuseError ProcessedFile × FuseState)
    (hrec : ∀ q s, ((rec q s).2).processing_stack = s.processing_stack)
    (abs_path : FPath) (s : FuseState) :
    ((process_file_body ctx rec abs_path s).2).processing_stack
      = s.processing_stack.erase abs_path := by
  simp only [process_file_body]
  cases hread : ctx.fs.read abs_path with
  | none => rfl
  | some content =>
    have h := process_lines_stack ctx rec hrec abs_path.parent (split_lines content) s
    rcases hl : process_lines ctx rec abs_path.parent (split_lines content) s with ⟨r, s₂⟩
    rw [hl] at h
    dsimp only
    rw [hl]
    cases r <;> simp only [] <;> rw [h]

theorem process_file_stack (ctx : CppFusioner) :
    ∀ (fuel : Nat) (file_path : FPath) (s : FuseState),
      ((process_file ctx fuel file_path s).2).processing_stack = s.processing_stack := by
  intro fuel
  induction fuel with
  | zero => intro p s; rfl
  | succ fuel ih =>
    intro p s
    simp only [process_file]
    split
    · rfl
    · rw [process_file_body_stack ctx (process_file ctx fuel) (fun q s₃ => ih q s₃)]
      exact List.erase_cons_head _ _

theorem do_inline_mono (rec : FPath → FuseState → Except FuseError ProcessedFile × FuseState)
    (hrec : ∀ q s, s.already_inlined ⊆ ((rec q s).2).already_inlined)
    (q : FPath) (s : FuseState) :
    s.already_inlined ⊆ ((do_inline rec q s).2).already_inlined := by
  have h := hrec q s
  unfold do_inline
  rcases hq : rec q s with ⟨r, s₁⟩
  rw [hq] at h
  cases r with
  | error e => simpa using h
  | ok pf =>
    simp only []
    exact h.trans (subset_add_inlined q s₁.already_inlined)

theorem quote_include_step_mono (ctx : CppFusioner)
    (rec : FPath → FuseState → Except FuseError ProcessedFile × FuseState)
    (hrec : ∀ q s, s.already_inlined ⊆ ((rec q s).2).already_inlined)
    (current_dir : FPath) (line include_name : String) (s : FuseState) :
    s.already_inlined ⊆ ((quote_include_step ctx rec current_dir line include_name s).2).already_inlined := by
  simp only [quote_include_step]
  split
  · exact List.Subset.refl _
  · split
    · split
      · exact do_inline_mono rec hrec _ _
      · split
        · exact do_inline_mono rec hrec _ _
        · split
          · exact List.Subset.refl _
          · exact List.Subset.refl _
    · exact List.Subset.refl _

theorem line_step_mono (ctx : CppFusioner)
    (rec : FPath → FuseState → Except FuseError ProcessedFile × FuseState)
    (hrec : ∀ q s, s.already_inlined ⊆ ((rec q s).2).already_inlined)
    (current_dir : FPath) (line : String) (s : FuseState) :
    s.already_inlined ⊆ ((line_step ctx rec current_dir line s).2).already_inlined := by
  simp only [line_step]
  split
  · exact List.Subset.refl _
  · split
    · exact List.Subset.refl _
    · exact quote_include_step_mono ctx rec hrec _ _ _ _

theorem process_lines_mono (ctx : CppFusioner)
    (rec : FPath → FuseState → Except FuseError ProcessedFile × FuseState)
    (hrec : ∀ q s, s.already_inlined ⊆ ((rec q s).2).already_inlined)
    (current_dir : FPath) :
    ∀ (lines : List String) (s : FuseState),
      s.already_inlined ⊆ ((process_lines ctx rec current_dir lines s).2).already_inlined := by
  intro lines
  induction lines with
  | nil => intro s; exact List.Subset.refl _
  | cons line rest ih =>
    intro s
    have h₁ := line_step_mono ctx rec hrec current_dir line s
    simp only [process_lines]
    rcases hstep : line_step ctx rec current_dir line s with ⟨r₁, s₁⟩
    rw [hstep] at h₁
    cases r₁ with
    | error e => simpa using h₁
    | ok out =>
      have h₂ := ih s₁
      rcases hrest : process_lines ctx rec current_dir rest s₁ with ⟨r₂, s₂⟩
      rw [hrest] at h₂
      dsimp only
      rw [hrest]
      cases r₂ <;> simpa using h₁.trans h₂

theorem process_file_body_mono (ctx : CppFusioner)
    (rec : FPath → FuseState → Except FuseError ProcessedFile × FuseState)
    (hrec : ∀ q s, s.already_inlined ⊆ ((rec q s).2).already_inlined)
    (abs_path : FPath) (s : FuseState) :
    s.already_inlined ⊆ ((process_file_body ctx rec abs_path s).2).already_inlined := by
  simp only [process_file_body]
  cases hread : ctx.fs.read abs_path with
  | none => exact List.Subset.refl _
  | some content =>
    have h := process_lines_mono ctx rec hrec abs_path.parent (split_lines content) s
    rcases hl : process_lines ctx rec abs_path.parent (split_lines content) s with ⟨r, s₂⟩
    rw [hl] at h
    dsimp only
    rw [hl]
    cases r <;> simpa using h

theorem process_file_mono (ctx : CppFusioner) :
    ∀ (fuel : Nat) (file_path : FPath) (s : FuseState),
      s.already_inlined ⊆ ((process_file ctx fuel file_path s).2).already_inlined := by
  intro fuel
  induction fuel with
  | zero => intro p s; exact List.Subset.refl _
  | succ fuel ih =>
    intro p s
    simp only [process_file]
    split
    · exact List.Subset.refl _
    · exact process_file_body_mono ctx (process_file ctx fuel) (fun q s₃ => ih q s₃)
        (resolve_path ctx.cwd p) ⟨resolve_path ctx.cwd p :: s.processing_stack, s.already_inlined⟩

/-- The property that an error produced by a run is one of: the engine's own
circular-dependency error; a read failure at a path whose underlying read
fails; the out-of-fuel artefact of the embedding. -/
def sound_error (fs : FileSystem) (e : FuseError) : Prop :=
  (∃ q, e = FuseError.circular q) ∨
  (∃ q, e = FuseError.readFail q ∧ fs.read q = none) ∨
  e = FuseError.outOfFuel

theorem do_inline_err (fs : FileSystem)
    (rec : FPath → FuseState → Except FuseError ProcessedFile × FuseState)
    (hrec : ∀ q s e, (rec q s).1 = Except.error e → sound_error fs e)
    (q : FPath) (s : FuseState) (e : FuseError)
    (h : (do_inline rec q s).1 = Except.error e) : sound_error fs e := by
  unfold do_inline at h
  rcases hq : rec q s with ⟨r, s₁⟩
  rw [hq] at h
  cases r with
  | error e₂ =>
    simp only [] at h
    cases h
    exact hrec q s e (by rw [hq])
  | ok pf => simp at h

theorem quote_include_step_err (ctx : CppFusioner)
    (rec : FPath → FuseState → Except FuseError ProcessedFile × FuseState)
    (hrec : ∀ q s e, (rec q s).1 = Except.error e → sound_error ctx.fs e)
    (current_dir : FPath) (line include_name : String) (s : FuseState) (e : FuseError)
    (h : (quote_include_step ctx rec current_dir line include_name s).1 = Except.error e) :
    sound_error ctx.fs e := by
  simp only [quote_include_step] at h
  split at h
  · simp at h
  · split at h
    · split at h
      · exact do_inline_err ctx.fs rec hrec _ _ e h
      · split at h
        · exact do_inline_err ctx.fs rec hrec _ _ e h
        · split at h <;> simp at h
    · simp at h

theorem line_step_err (ctx : CppFusioner)
    (rec : FPath → FuseState → Except FuseError ProcessedFile × FuseState)
    (hrec : ∀ q s e, (rec q s).1 = Except.error e → sound_error ctx.fs e)
    (current_dir : FPath) (line : String) (s : FuseState) (e : FuseError)
    (h : (line_step ctx rec current_dir line s).1 = Except.error e) : sound_error ctx.fs e := by
  simp only [line_step] at h
  split at h
  · simp at h
  · split at h
    · simp at h
    · exact quote_include_step_err ctx rec hrec _ _ _ _ e h

theorem process_lines_err (ctx : CppFusioner)
    (rec : FPath → FuseState → Except FuseError ProcessedFile × FuseState)
    (hrec : ∀ q s e, (rec q s).1 = Except.error e → sound_error ctx.fs e)
    (current_dir : FPath) :
    ∀ (lines : List String) (s : FuseState) (e : FuseError),
      (process_lines ctx rec current_dir lines s).1 = Except.error e → sound_error ctx.fs e := by
  intro lines
  induction lines with
  | nil => intro s e h; simp [process_lines] at h
  | cons line rest ih =>
    intro s e h
    simp only [process_lines] at h
    rcases hstep : line_step ctx rec current_dir line s with ⟨r₁, s₁⟩
    rw [hstep] at h
    cases r₁ with
    | error e₁ =>
      simp only [] at h
      cases h
      exact line_step_err ctx rec hrec current_dir line s e (by rw [hstep])
    | ok out =>
      dsimp only at h
      rcases hrest : process_lines ctx rec current_dir rest s₁ with ⟨r₂, s₂⟩
      rw [hrest] at h
      cases r₂ with
      | error e₂ =>
        simp only [] at h
        cases h
        exact ih s₁ e (by rw [hrest])
      | ok outs => simp at h

theorem process_file_err (ctx : CppFusioner) :
    ∀ (fuel : Nat) (file_path : FPath) (s : FuseState) (e : FuseError),
      (process_file ctx fuel file_path s).1 = Except.error e → sound_error ctx.fs e := by
  intro fuel
  induction fuel with
  | zero =>
    intro p s e h
    simp only [process_file] at h
    cases h
    exact Or.inr (Or.inr rfl)
  | succ fuel ih =>
    intro p s e h
    simp only [process_file] at h
    split at h
    · simp only [] at h
      cases h
      exact Or.inl ⟨_, rfl⟩
    · simp only [process_file_body] at h
      cases hread : ctx.fs.read (resolve_path ctx.cwd p) with
      | none =>
        rw [hread] at h
        simp only [] at h
        cases h
        exact Or.inr (Or.inl ⟨_, rfl, hread⟩)
      | some content =>
        rw [hread] at h
        dsimp only at h
        rcases hl : process_lines ctx (process_file ctx fuel) (resolve_path ctx.cwd p).parent
            (split_lines content) ⟨resolve_path ctx.cwd p :: s.processing_stack, s.already_inlined⟩
          with ⟨r, s₂⟩
        rw [hl] at h
        cases r with
        | error e₂ =>
          simp only [] at h
          cases h
          exact process_lines_err ctx (process_file ctx fuel) (fun q s₃ e₃ => ih q s₃ e₃) _
            (split_lines content) _ e (by rw [hl])
        | ok outs => simp at h

/-- Claim C1: a `process_file` call on a file whose resolved absolute path is
already on the `processing_stack` raises the circular-dependency error naming
that path, immediately and before any recursive work (the state is returned
untouched); in particular the concrete run where `/r/a.h` includes `"b.h"` and
`/r/b.h` includes `"a.h"` fails with exactly such an error, naming the path
`/r/a.h` which is on the cycle, and restores the empty stack. -/
theorem claim_C1_cycle_error :
    (∀ (ctx : CppFusioner) (fuel : Nat) (file_path : FPath) (s : FuseState),
      0 < fuel →
      resolve_path ctx.cwd file_path ∈ s.processing_stack →
      process_file ctx fuel file_path s =
        (Except.error (FuseError.circular (resolve_path ctx.cwd file_path)), s))
    ∧ process_file ctxAB 10 pA init_state = (Except.error (FuseError.circular pA), init_state) := by
  constructor
  · intro ctx fuel file_path s hf hmem
    cases fuel with
    | zero => exact absurd hf (lt_irrefl 0)
    | succ fuel =>
      simp only [process_file]
      rw [if_pos hmem]
  · rfl

/-- Witness for C1: the general conjunct applied at a concrete state that has
`/r/a.h` on the stack. -/
theorem claim_C1_cycle_error_witness :
    0 < 1 ∧ resolve_path ctxAB.cwd pA ∈ ([pA] : List FPath) ∧
    process_file ctxAB 1 pA ⟨[pA], []⟩ =
      (Except.error (FuseError.circular (resolve_path ctxAB.cwd pA)), ⟨[pA], []⟩) :=
  ⟨Nat.one_pos, by decide,
    claim_C1_cycle_error.1 ctxAB 1 pA ⟨[pA], []⟩ Nat.one_pos (by decide)⟩

/-- Claim C4: the `processing_stack` invariant.  (i) Every call restores the
stack on every exit path — success, circular-dependency error, read failure —
so membership is confined to the duration of a call.  (ii) When the resolved
path is already on the stack (i.e. belongs to an ancestor frame) the call
fails at once, leaving the state untouched.  (iii) When it is not, the call
runs its body exactly on the state whose stack has the resolved path pushed on
top — so during the body (and hence in every descendant frame) the resolved
path is a member, and stack membership coincides with being an ancestor
frame. -/
theorem claim_C4_stack_invariant :
    (∀ (ctx : CppFusioner) (fuel : Nat) (file_path : FPath) (s : FuseState),
      ((process_file ctx fuel file_path s).2).processing_stack = s.processing_stack)
    ∧ (∀ (ctx : CppFusioner) (fuel : Nat) (file_path : FPath) (s : FuseState),
      resolve_path ctx.cwd file_path ∈ s.processing_stack →
      process_file ctx (fuel + 1) file_path s =
        (Except.error (FuseError.circular (resolve_path ctx.cwd file_path)), s))
    ∧ (∀ (ctx : CppFusioner) (fuel : Nat) (file_path : FPath) (s : FuseState),
      resolve_path ctx.cwd file_path ∉ s.processing_stack →
      process_file ctx (fuel + 1) file_path s =
        process_file_body ctx (process_file ctx fuel) (resolve_path ctx.cwd file_path)
          ⟨resolve_path ctx.cwd file_path :: s.processing_stack, s.already_inlined⟩) := by
  refine ⟨fun ctx fuel file_path s => process_file_stack ctx fuel file_path s, ?_, ?_⟩
  · intro ctx fuel file_path s hmem
    simp only [process_file]
    rw [if_pos hmem]
  · intro ctx fuel file_path s hmem
    simp only [process_file]
    rw [if_neg hmem]

/-- Witness for C4: the push-on-entry equation applied at the concrete acyclic
scenario, from the fresh state. -/
theorem claim_C4_stack_invariant_witness :
    resolve_path ctxC.cwd pA ∉ init_state.processing_stack ∧
    process_file ctxC 1 pA init_state =
      process_file_body ctxC (process_file ctxC 0) (resolve_path ctxC.cwd pA)
        ⟨resolve_path ctxC.cwd pA :: init_state.processing_stack, init_state.already_inlined⟩ :=
  ⟨by decide, claim_C4_stack_invariant.2.2 ctxC 0 pA init_state (by decide)⟩

/-- Claim C2: run-wide at-most-once inlining.  (i) A quote-side directive
whose resolved path `q` is not yet in `already_inlined` and satisfies the
inlining policy emits exactly the provenance marker line naming `q` followed
by `q`'s fully processed content, and `q` is a member of `already_inlined`
afterwards.  (ii) A quote-side directive whose resolved path is already in
`already_inlined` emits zero output lines and leaves the state untouched.
(iii) `already_inlined` only ever grows across a `process_file` call — so once
`q` has been inlined, every later directive of the run resolving to `q` falls
under (ii) and emits nothing, however often `q` is referenced. -/
theorem claim_C2_inline_once :
    (∀ (ctx : CppFusioner) (fuel : Nat) (current_dir : FPath) (line include_name : String)
        (s : FuseState) (q : FPath) (pf : ProcessedFile) (s₁ : FuseState),
      include_match line = some include_name →
      line_has_angle line = false →
      find_include_file ctx include_name current_dir = some q →
      q ∉ s.already_inlined →
      inline_policy ctx include_name q →
      process_file ctx fuel q s = (Except.ok pf, s₁) →
      line_step ctx (process_file ctx fuel) current_dir line s =
        (Except.ok ["// Inlined from: " ++ path_display q, pf.content],
         ⟨s₁.processing_stack, add_inlined q s₁.already_inlined⟩) ∧
      q ∈ add_inlined q s₁.already_inlined)
    ∧ (∀ (ctx : CppFusioner) (fuel : Nat) (current_dir : FPath) (line include_name : String)
        (s : FuseState) (q : FPath),
      include_match line = some include_name →
      line_has_angle line = false →
      find_include_file ctx include_name current_dir = some q →
      q ∈ s.already_inlined →
      line_step ctx (process_file ctx fuel) current_dir line s = (Except.ok [], s))
    ∧ (∀ (ctx : CppFusioner) (fuel : Nat) (file_path : FPath) (s : FuseState),
      s.already_inlined ⊆ ((process_file ctx fuel file_path s).2).already_inlined) := by
  refine ⟨?_, ?_, fun ctx fuel file_path s => process_file_mono ctx fuel file_path s⟩
  · intro ctx fuel current_dir line include_name s q pf s₁ hmatch hangle hfind hnotin hpol hrec
    refine ⟨?_, mem_add_inlined_self q s₁.already_inlined⟩
    simp only [line_step, hmatch]
    simp [hangle]
    simp only [quote_include_step, hfind]
    have hdec : opt_mem_inlined (some q) s.already_inlined = false := by
      simp [opt_mem_inlined, hnotin]
    rw [hdec]
    simp only [Bool.false_eq_true, if_false]
    rcases hpol with hA | hB
    · rw [if_pos hA]
      simp only [do_inline, hrec]
    · by_cases hA : ctx.inline_headers ∧ get_file_type q = FileType.HEADER
      · rw [if_pos hA]
        simp only [do_inline, hrec]
      · rw [if_neg hA, if_pos hB]
        simp only [do_inline, hrec]
  · intro ctx fuel current_dir line include_name s q hmatch hangle hfind hin
    simp only [line_step, hmatch]
    simp [hangle]
    simp only [quote_include_step, hfind]
    have hdec : opt_mem_inlined (some q) s.already_inlined = true := by
      simp [opt_mem_inlined, hin]
    rw [hdec]
    simp

/-- Witness for C2: in the acyclic scenario (`/r/a.h` includes `"b.h"`
twice), the first directive for `b.h` from a fresh state emits the marker and
`b.h`'s content and records `b.h`; a directive seen when `b.h` is already
recorded emits nothing; the inlined set only grows over the whole run. -/
theorem claim_C2_inline_once_witness :
    (line_step ctxC (process_file ctxC 2) ⟨true, ["r"]⟩ "#include \"b.h\"" init_state =
      (Except.ok ["// Inlined from: " ++ path_display pB, "int b;"],
       ⟨[], add_inlined pB []⟩) ∧ pB ∈ add_inlined pB ([] : List FPath)) ∧
    line_step ctxC (process_file ctxC 2) ⟨true, ["r"]⟩ "#include \"b.h\"" ⟨[], [pB]⟩ =
      (Except.ok [], ⟨[], [pB]⟩) ∧
    init_state.already_inlined ⊆ ((process_file ctxC 5 pA init_state).2).already_inlined :=
  ⟨claim_C2_inline_once.1 ctxC 2 ⟨true, ["r"]⟩ "#include \"b.h\"" "b.h" init_state pB
      ⟨pB, "int b;", FileType.HEADER⟩ ⟨[], []⟩
      (by decide) (by decide) (by decide) (by decide) (by decide) rfl,
   claim_C2_inline_once.2.1 ctxC 2 ⟨true, ["r"]⟩ "#include \"b.h\"" "b.h" ⟨[], [pB]⟩ pB
      (by decide) (by decide) (by decide) (by decide),
   claim_C2_inline_once.2.2 ctxC 5 pA init_state⟩

/-- Claim C5, amended: for a recognised directive the preserve-as-system
branch is taken if and only if the character `'<'` occurs anywhere on the line
(the source tests `'<' in line`, not the matched delimiter): with a `'<'`
present the original line passes through unchanged and the resolver is never
consulted; with no `'<'` anywhere the directive is handed to the
resolver-consulting step.  Angle-delimited directives always contain `'<'`,
so they are always preserved; but a quote-delimited directive is handed to
the resolver only when no `'<'` occurs elsewhere on the line. -/
theorem claim_C5_angle_test :
    ∀ (ctx : CppFusioner) (fuel : Nat) (current_dir : FPath) (line include_name : String)
      (s : FuseState),
      include_match line = some include_name →
      (line_has_angle line = true →
        line_step ctx (process_file ctx fuel) current_dir line s = (Except.ok [line], s)) ∧
      (line_has_angle line = false →
        line_step ctx (process_file ctx fuel) current_dir line s =
          quote_include_step ctx (process_file ctx fuel) current_dir line include_name s) := by
  intro ctx fuel current_dir line include_name s hmatch
  constructor
  · intro hangle
    simp only [line_step, hmatch]
    simp [hangle]
  · intro hangle
    simp only [line_step, hmatch]
    simp [hangle]

/-- Witness for the amended C5: an angle-delimited directive is preserved
verbatim; a quote-delimited directive with no `'<'` on the line is handed to
the resolver-consulting step. -/
theorem claim_C5_angle_test_witness :
    line_step ctxC (process_file ctxC 2) ⟨true, ["r"]⟩ "#include <stdio.h>" init_state =
      (Except.ok ["#include <stdio.h>"], init_state) ∧
    line_step ctxC (process_file ctxC 2) ⟨true, ["r"]⟩ "#include \"b.h\"" init_state =
      quote_include_step ctxC (process_file ctxC 2) ⟨true, ["r"]⟩ "#include \"b.h\"" "b.h" init_state :=
  ⟨(claim_C5_angle_test ctxC 2 ⟨true, ["r"]⟩ "#include <stdio.h>" "stdio.h" init_state
      (by decide)).1 (by decide),
   (claim_C5_angle_test ctxC 2 ⟨true, ["r"]⟩ "#include \"b.h\"" "b.h" init_state
      (by decide)).2 (by decide)⟩

/-- Counterexample to C5 as stated: the line `#include "a.h"  // x < y` is a
quote-delimited directive (the match extracts `a.h` between double quotes),
its reference is resolvable and the policy would inline it, yet because a
`'<'` occurs in the trailing comment the engine takes the
preserve-as-system-include branch: the line passes through unchanged, the
resolver result is never used and nothing is inlined. -/
theorem claim_C5_counterexample :
    include_match "#include \"a.h\"  // x < y" = some "a.h" ∧
    line_has_angle "#include \"a.h\"  // x < y" = true ∧
    find_include_file ctxC "a.h" ⟨true, ["r"]⟩ = some pA ∧
    inline_policy ctxC "a.h" pA ∧
    line_step ctxC (process_file ctxC 5) ⟨true, ["r"]⟩ "#include \"a.h\"  // x < y" init_state =
      (Except.ok ["#include \"a.h\"  // x < y"], init_state) ∧
    pA ∉ ((line_step ctxC (process_file ctxC 5) ⟨true, ["r"]⟩ "#include \"a.h\"  // x < y"
      init_state).2).already_inlined := by
  refine ⟨by decide, by decide, by decide, by decide, by rfl, by decide⟩

/-- Claim C8: failure semantics.  (i) An unresolvable quote-side directive is
not an error: the original directive line is emitted unchanged and the state
is untouched.  (ii) Every error a run can produce is the engine's
circular-dependency error, a read failure at a path whose underlying read
fails (the error propagates from the read), or the out-of-fuel artefact of
the fuel-indexed embedding. -/
theorem claim_C8_failure_semantics :
    (∀ (ctx : CppFusioner) (fuel : Nat) (current_dir : FPath) (line include_name : String)
        (s : FuseState),
      include_match line = some include_name →
      line_has_angle line = false →
      find_include_file ctx include_name current_dir = none →
      line_step ctx (process_file ctx fuel) current_dir line s = (Except.ok [line], s))
    ∧ (∀ (ctx : CppFusioner) (fuel : Nat) (file_path : FPath) (s : FuseState) (e : FuseError),
      (process_file ctx fuel file_path s).1 = Except.error e → sound_error ctx.fs e) := by
  constructor
  · intro ctx fuel current_dir line include_name s hmatch hangle hfind
    simp only [line_step, hmatch]
    simp [hangle]
    simp only [quote_include_step, hfind]
    simp [opt_mem_inlined]
  · exact fun ctx fuel file_path s e h => process_file_err ctx fuel file_path s e h

/-- Witness for C8: the unresolvable directive `"zzz.h"` in the acyclic
scenario passes through unchanged; the cyclic scenario's error is indeed a
sound engine error. -/
theorem claim_C8_failure_semantics_witness :
    line_step ctxC (process_file ctxC 2) ⟨true, ["r"]⟩ "#include \"zzz.h\"" init_state =
      (Except.ok ["#include \"zzz.h\""], init_state) ∧
    sound_error ctxAB.fs (FuseError.circular pA) :=
  ⟨claim_C8_failure_semantics.1 ctxC 2 ⟨true, ["r"]⟩ "#include \"zzz.h\"" "zzz.h" init_state
      (by decide) (by decide) (by decide),
   claim_C8_failure_semantics.2 ctxAB 10 pA init_state (FuseError.circular pA) (by rfl)⟩

theorem search_include_dirs_eq_find (fs : FileSystem) (include_name : String) :
    ∀ L : List FPath,
      search_include_dirs fs include_name L =
        (L.find? (fun d => fs.pathExists (d.joinRef include_name))).map
          (fun d => d.joinRef include_name) := by
  intro L
  induction L with
  | nil => rfl
  | cons d ds ih =>
    simp only [search_include_dirs]
    by_cases h : fs.pathExists (d.joinRef include_name) = true
    · simp [h, List.find?_cons_of_pos]
    · simp only [Bool.not_eq_true] at h
      simp [h, List.find?_cons_of_neg, ih]

/-- Claim C7: deterministic first-match-wins resolution.  `find_include_file`
returns the candidate in the including file's own directory when it exists;
otherwise the candidate built from the first directory of the (order-
preserving) search-path list whose candidate exists; and it returns `none`
exactly when no candidate exists anywhere. -/
theorem claim_C7_resolver_order :
    ∀ (ctx : CppFusioner) (include_name : String) (current_dir : FPath),
      (find_include_file ctx include_name current_dir =
        if ctx.fs.pathExists (current_dir.joinRef include_name) then
          some (current_dir.joinRef include_name)
        else
          (ctx.include_paths.find? (fun d => ctx.fs.pathExists (d.joinRef include_name))).map
            (fun d => d.joinRef include_name))
      ∧ (find_include_file ctx include_name current_dir = none ↔
          (ctx.fs.pathExists (current_dir.joinRef include_name) = false ∧
           ∀ d ∈ ctx.include_paths, ctx.fs.pathExists (d.joinRef include_name) = false)) := by
  intro ctx include_name current_dir
  constructor
  · simp only [find_include_file]
    by_cases h : ctx.fs.pathExists (current_dir.joinRef include_name) = true
    · simp [h]
    · simp only [Bool.not_eq_true] at h
      simp [h, search_include_dirs_eq_find]
  · simp only [find_include_file]
    by_cases h : ctx.fs.pathExists (current_dir.joinRef include_name) = true
    · simp [h]
    · simp only [Bool.not_eq_true] at h
      simp [h, search_include_dirs_eq_find, List.find?_eq_none]

/-- Claim C9: the output assembler wraps in an inclusion guard exactly when
the processed top-level file's kind is `HEADER`: the output is the lines
`#ifndef G`, `#define G`, a blank line, the fused body, a blank line and
`#endif  // G`, where the guard token `G` is `FUSED_` + the upper-cased stem
of the input path + `_H`; any non-header top-level result is written verbatim
with no wrapping. -/
theorem claim_C9_guard_wrap :
    ∀ (ctx : CppFusioner) (fuel : Nat) (input_file : FPath) (pf : ProcessedFile) (s₂ : FuseState),
      process_file ctx fuel input_file init_state = (Except.ok pf, s₂) →
      (pf.type = FileType.HEADER →
        fuse_file ctx fuel input_file = Except.ok (join_nl
          ["#ifndef " ++ guard_name input_file,
           "#define " ++ guard_name input_file,
           "",
           pf.content,
           "",
           "#endif  // " ++ guard_name input_file])) ∧
      (pf.type ≠ FileType.HEADER → fuse_file ctx fuel input_file = Except.ok pf.content) ∧
      guard_name input_file = "FUSED_" ++ upper_str (path_stem input_file) ++ "_H" := by
  intro ctx fuel input_file pf s₂ h
  refine ⟨?_, ?_, rfl⟩
  · intro ht
    simp only [fuse_file, h]
    rw [if_pos ht]
  · intro ht
    simp only [fuse_file, h]
    rw [if_neg ht]

/-- Witness for C9: the header-kind input `/r/a.h` of the acyclic scenario is
wrapped in the `FUSED_A_H` guard. -/
theorem claim_C9_guard_wrap_witness :
    fuse_file ctxC 5 pA = Except.ok (join_nl
      ["#ifndef " ++ guard_name pA,
       "#define " ++ guard_name pA,
       "",
       "// Inlined from: /r/b.h\nint b;\nint a;",
       "",
       "#endif  // " ++ guard_name pA]) :=
  (claim_C9_guard_wrap ctxC 5 pA ⟨pA, "// Inlined from: /r/b.h\nint b;\nint a;", FileType.HEADER⟩
    ⟨[], [pB]⟩ (by rfl)).1 (by rfl)

theorem resolve_path_absolute (cwd : List String) (p : FPath) :
    (resolve_path cwd p).absolute = true := by
  unfold resolve_path
  split
  · assumption
  · rfl

theorem joinRef_absolute (p : FPath) (include_name : String) :
    (p.joinRef include_name).absolute = p.absolute := rfl

theorem parent_absolute (p : FPath) : p.parent.absolute = p.absolute := rfl

theorem search_include_dirs_absolute (fs : FileSystem) (include_name : String) :
    ∀ (L : List FPath), (∀ d ∈ L, d.absolute = true) →
      ∀ q, search_include_dirs fs include_name L = some q → q.absolute = true := by
  intro L
  induction L with
  | nil => intro _ q h; simp [search_include_dirs] at h
  | cons d ds ih =>
    intro hall q h
    simp only [search_include_dirs] at h
    split at h
    · cases h
      exact hall d (List.mem_cons_self d ds)
    · exact ih (fun x hx => hall x (List.mem_cons_of_mem d hx)) q h

theorem find_include_file_absolute (ctx : CppFusioner) (include_name : String) (current_dir : FPath)
    (hdirs : ∀ d ∈ ctx.include_paths, d.absolute = true)
    (hcur : current_dir.absolute = true) :
    ∀ q, find_include_file ctx include_name current_dir = some q → q.absolute = true := by
  intro q h
  simp only [find_include_file] at h
  split at h
  · cases h
    exact hcur
  · exact search_include_dirs_absolute ctx.fs include_name ctx.include_paths hdirs q h

/-- Invariant of the C10 amendment: every member of `already_inlined` is an
absolute path. -/
def inlined_absolute (s : FuseState) : Prop :=
  ∀ q ∈ s.already_inlined, q.absolute = true

theorem add_inlined_absolute (q : FPath) (l : List FPath)
    (hq : q.absolute = true) (hl : ∀ x ∈ l, x.absolute = true) :
    ∀ x ∈ add_inlined q l, x.absolute = true := by
  intro x hx
  unfold add_inlined at hx
  split at hx
  · exact hl x hx
  · rcases List.mem_cons.1 hx with h | h
    · rw [h]; exact hq
    · exact hl x h

theorem do_inline_absolute (rec : FPath → FuseState → Except FuseError ProcessedFile × FuseState)
    (hrec : ∀ q s, inlined_absolute s → inlined_absolute ((rec q s).2))
    (q : FPath) (s : FuseState) (hq : q.absolute = true) (hs : inlined_absolute s) :
    inlined_absolute ((do_inline rec q s).2) := by
  have h := hrec q s hs
  unfold do_inline
  rcases hqr : rec q s with ⟨r, s₁⟩
  rw [hqr] at h
  cases r with
  | error e => simpa using h
  | ok pf =>
    simp only []
    intro x hx
    exact add_inlined_absolute q s₁.already_inlined hq h x hx

theorem quote_include_step_absolute (ctx : CppFusioner)
    (rec : FPath → FuseState → Except FuseError ProcessedFile × FuseState)
    (hrec : ∀ q s, inlined_absolute s → inlined_absolute ((rec q s).2))
    (hdirs : ∀ d ∈ ctx.include_paths, d.absolute = true)
    (current_dir : FPath) (hcur : current_dir.absolute = true)
    (line include_name : String) (s : FuseState) (hs : inlined_absolute s) :
    inlined_absolute ((quote_include_step ctx rec current_dir line include_name s).2) := by
  simp only [quote_include_step]
  split
  · exact hs
  · split
    · rename_i q hq
      have habs : q.absolute = true :=
        find_include_file_absolute ctx include_name current_dir hdirs hcur q hq
      split
      · exact do_inline_absolute rec hrec q s habs hs
      · split
        · exact do_inline_absolute rec hrec q s habs hs
        · split
          · exact hs
          · exact hs
    · exact hs

theorem line_step_absolute (ctx : CppFusioner)
    (rec : FPath → FuseState → Except FuseError ProcessedFile × FuseState)
    (hrec : ∀ q s, inlined_absolute s → inlined_absolute ((rec q s).2))
    (hdirs : ∀ d ∈ ctx.include_paths, d.absolute = true)
    (current_dir : FPath) (hcur : current_dir.absolute = true)
    (line : String) (s : FuseState) (hs : inlined_absolute s) :
    inlined_absolute ((line_step ctx rec current_dir line s).2) := by
  simp only [line_step]
  split
  · exact hs
  · split
    · exact hs
    · exact quote_include_step_absolute ctx rec hrec hdirs current_dir hcur _ _ s hs

theorem process_lines_absolute (ctx : CppFusioner)
    (rec : FPath → FuseState → Except FuseError ProcessedFile × FuseState)
    (hrec : ∀ q s, inlined_absolute s → inlined_absolute ((rec q s).2))
    (hdirs : ∀ d ∈ ctx.include_paths, d.absolute = true)
    (current_dir : FPath) (hcur : current_dir.absolute = true) :
    ∀ (lines : List String) (s : FuseState), inlined_absolute s →
      inlined_absolute ((process_lines ctx rec current_dir lines s).2) := by
  intro lines
  induction lines with
  | nil => intro s hs; exact hs
  | cons line rest ih =>
    intro s hs
    have h₁ := line_step_absolute ctx rec hrec hdirs current_dir hcur line s hs
    simp only [process_lines]
    rcases hstep : line_step ctx rec current_dir line s with ⟨r₁, s₁⟩
    rw [hstep] at h₁
    cases r₁ with
    | error e => simpa using h₁
    | ok out =>
      have h₂ := ih s₁ h₁
      rcases hrest : process_lines ctx rec current_dir rest s₁ with ⟨r₂, s₂⟩
      rw [hrest] at h₂
      dsimp only
      rw [hrest]
      cases r₂ <;> simpa using h₂

theorem process_file_body_absolute (ctx : CppFusioner)
    (rec : FPath → FuseState → Except FuseError ProcessedFile × FuseState)
    (hrec : ∀ q s, inlined_absolute s → inlined_absolute ((rec q s).2))
    (hdirs : ∀ d ∈ ctx.include_paths, d.absolute = true)
    (abs_path : FPath) (habs : abs_path.absolute = true)
    (s : FuseState) (hs : inlined_absolute s) :
    inlined_absolute ((process_file_body ctx rec abs_path s).2) := by
  simp only [process_file_body]
  cases hread : ctx.fs.read abs_path with
  | none => exact hs
  | some content =>
    have hpar : abs_path.parent.absolute = true := by
      rw [parent_absolute]; exact habs
    have h := process_lines_absolute ctx rec hrec hdirs abs_path.parent hpar
      (split_lines content) s hs
    rcases hl : process_lines ctx rec abs_path.parent (split_lines content) s with ⟨r, s₂⟩
    rw [hl] at h
    dsimp only
    rw [hl]
    cases r <;> simpa using h

/-- Claim C10, amended: members of `already_inlined` are the resolver's
results verbatim, so they are absolute whenever every search-path entry is
absolute (candidates from the including file's own directory are always
absolute, since they descend from a `resolve()`d path).  A relative
search-path entry, however, puts a relative path into the set — see the
counterexample. -/
theorem claim_C10_inlined_absolute :
    ∀ (ctx : CppFusioner) (fuel : Nat) (file_path : FPath) (s : FuseState),
      (∀ d ∈ ctx.include_paths, d.absolute = true) →
      inlined_absolute s →
      inlined_absolute ((process_file ctx fuel file_path s).2) := by
  intro ctx fuel
  induction fuel with
  | zero => intro p s _ hs; exact hs
  | succ fuel ih =>
    intro p s hdirs hs
    simp only [process_file]
    split
    · exact hs
    · exact process_file_body_absolute ctx (process_file ctx fuel)
        (fun q s₃ hq => ih q s₃ hdirs hq) hdirs
        (resolve_path ctx.cwd p) (resolve_path_absolute ctx.cwd p)
        ⟨resolve_path ctx.cwd p :: s.processing_stack, s.already_inlined⟩ hs

/-- Witness for the amended C10: in the acyclic scenario (whose search path is
empty, hence all-absolute), the path recorded for `b.h` is absolute. -/
theorem claim_C10_inlined_absolute_witness : pB.absolute = true :=
  claim_C10_inlined_absolute ctxC 5 pA init_state (by decide) (fun q hq => absurd hq (List.not_mem_nil q)) pB (by decide)

/-- Counterexample to C10 as stated: with the relative search-path entry
`inc`, processing `/w/a.h` (which includes `"b.h"`, found as `inc/b.h`) puts
the relative path `inc/b.h` — not an absolute path — into `already_inlined`,
even though the run succeeds. -/
theorem claim_C10_counterexample :
    ((process_file ctx10 5 pW init_state).2).already_inlined = [pBrel] ∧
    pBrel.absolute = false := by
  refine ⟨by rfl, by rfl⟩

theorem dropLiteralChars_eq_append :
    ∀ (ps cs rest : List Char), dropLiteralChars ps cs = some rest → cs = ps ++ rest := by
  intro ps
  induction ps with
  | nil =>
    intro cs rest h
    cases h
    rfl
  | cons p ps ih =>
    intro cs rest h
    cases cs with
    | nil => cases h
    | cons c cs =>
      simp only [dropLiteralChars] at h
      split at h
      · rename_i hc
        rw [List.cons_append, ih cs rest h, hc]
      · cases h

theorem dropLiteralChars_self_append :
    ∀ (ps rest : List Char), dropLiteralChars ps (ps ++ rest) = some rest := by
  intro ps
  induction ps with
  | nil => intro rest; rfl
  | cons p ps ih =>
    intro rest
    simp only [List.cons_append, dropLiteralChars, if_pos rfl]
    exact ih rest

theorem dropWhile_append_all (p : Char → Bool) :
    ∀ (ws l : List Char), (∀ c ∈ ws, p c = true) →
      (ws ++ l).dropWhile p = l.dropWhile p := by
  intro ws
  induction ws with
  | nil => intro l _; rfl
  | cons w ws ih =>
    intro l hall
    rw [List.cons_append, List.dropWhile_cons_of_pos (hall w (List.mem_cons_self w ws))]
    exact ih l (fun c hc => hall c (List.mem_cons_of_mem w hc))

theorem takeWhile_append_sat (p : Char → Bool) :
    ∀ (xs : List Char) (y : Char) (zs : List Char),
      (∀ c ∈ xs, p c = true) → p y = false →
      (xs ++ y :: zs).takeWhile p = xs := by
  intro xs
  induction xs with
  | nil =>
    intro y zs _ hy
    simp [List.takeWhile_cons, hy]
  | cons x xs ih =>
    intro y zs hall hy
    rw [List.cons_append, List.takeWhile_cons_of_pos (hall x (List.mem_cons_self x xs))]
    rw [ih y zs (fun c hc => hall c (List.mem_cons_of_mem x hc)) hy]

theorem dropWhile_append_sat (p : Char → Bool) :
    ∀ (xs : List Char) (y : Char) (zs : List Char),
      (∀ c ∈ xs, p c = true) → p y = false →
      (xs ++ y :: zs).dropWhile p = y :: zs := by
  intro xs y zs hall hy
  rw [dropWhile_append_all p xs (y :: zs) hall]
  exact List.dropWhile_cons_of_neg (by rw [hy]; exact Bool.false_ne_true)

theorem opener_not_space (d : Char) (h : isOpenerChar d = true) : isSpaceChar d = false := by
  simp only [isOpenerChar, Bool.or_eq_true, decide_eq_true_eq] at h
  rcases h with h | h <;> subst h <;> rfl

theorem include_match_chars_iff (cs ref : List Char) :
    include_match_chars cs = some ref ↔ DirectiveShape cs ref := by
  constructor
  · intro h
    unfold include_match_chars at h
    cases hdrop : dropLiteralChars include_token cs with
    | none => rw [hdrop] at h; cases h
    | some rest =>
      rw [hdrop] at h
      dsimp only at h
      have hcs : cs = include_token ++ rest := dropLiteralChars_eq_append _ _ _ hdrop
      cases hdw : rest.dropWhile isSpaceChar with
      | nil => rw [hdw] at h; cases h
      | cons d rest₂ =>
        rw [hdw] at h
        dsimp only at h
        by_cases hop : isOpenerChar d = true
        · rw [if_pos hop] at h
          cases hdc : rest₂.dropWhile not_closer with
          | nil => rw [hdc] at h; cases h
          | cons e rest₃ =>
            rw [hdc] at h
            dsimp only at h
            cases htw : rest₂.takeWhile not_closer with
            | nil => rw [htw] at h; cases h
            | cons r rs =>
              rw [htw] at h
              dsimp only at h
              simp only [Option.some.injEq] at h
              subst h
              have hclose : isCloserChar e = true := by
                have hne : rest₂.dropWhile not_closer ≠ [] := by
                  rw [hdc]; exact List.cons_ne_nil e rest₃
                have hhead := List.head_dropWhile_not not_closer rest₂ hne
                have he : (rest₂.dropWhile not_closer).head hne = e := by
                  simp [hdc]
                rw [he] at hhead
                simpa [not_closer] using hhead
              refine ⟨rest.takeWhile isSpaceChar, d, e, rest₃, ?_, ?_, hop,
                List.cons_ne_nil r rs, ?_, hclose⟩
              · have h1 : rest.takeWhile isSpaceChar ++ (d :: rest₂) = rest := by
                  rw [← hdw, List.takeWhile_append_dropWhile]
                have h2 : (r :: rs) ++ (e :: rest₃) = rest₂ := by
                  rw [← htw, ← hdc, List.takeWhile_append_dropWhile]
                rw [hcs, List.append_assoc, h2, h1]
              · intro c hc
                exact List.mem_takeWhile_imp hc
              · intro c hc
                have hmem : c ∈ rest₂.takeWhile not_closer := by
                  rw [htw]; exact hc
                have := List.mem_takeWhile_imp hmem
                simpa [not_closer] using this
        · rw [if_neg hop] at h; cases h
  · rintro ⟨ws, d, e, rest, hcs, hws, hop, href, hrefc, hclose⟩
    subst hcs
    unfold include_match_chars
    rw [List.append_assoc, dropLiteralChars_self_append]
    dsimp only
    have hdw : (ws ++ d :: (ref ++ e :: rest)).dropWhile isSpaceChar = d :: (ref ++ e :: rest) := by
      rw [dropWhile_append_all isSpaceChar ws _ hws]
      exact List.dropWhile_cons_of_neg (by rw [opener_not_space d hop]; exact Bool.false_ne_true)
    rw [hdw]
    dsimp only
    rw [if_pos hop]
    have hsat : ∀ c ∈ ref, not_closer c = true := by
      intro c hc
      simp [not_closer, hrefc c hc]
    have hy : not_closer e = false := by
      simp [not_closer, hclose]
    rw [dropWhile_append_sat not_closer ref e rest hsat hy]
    dsimp only
    rw [takeWhile_append_sat not_closer ref e rest hsat hy]
    cases ref with
    | nil => exact absurd rfl href
    | cons r rs => rfl

/-- Claim C6, amended: a line is treated as an inclusion directive (with
extracted reference `ref`) if and only if it has the shape: the literal token
`#include` at the very start of the line (no leading whitespace), optional
whitespace, an opening delimiter `<` or `"`, then a nonempty reference
containing neither `>` nor `"`, then a closing delimiter `>` or `"` — which
need not match the opening delimiter — with the rest of the line arbitrary;
and every non-matching line passes through to the output unchanged. -/
theorem claim_C6_directive_shape :
    (∀ (line ref : String), include_match line = some ref ↔
      ∃ refCs, DirectiveShape line.toList refCs ∧ ref = String.mk refCs)
    ∧ (∀ (ctx : CppFusioner) (fuel : Nat) (current_dir : FPath) (line : String) (s : FuseState),
      include_match line = none →
      line_step ctx (process_file ctx fuel) current_dir line s = (Except.ok [line], s)) := by
  constructor
  · intro line ref
    unfold include_match
    constructor
    · intro h
      rcases Option.map_eq_some'.1 h with ⟨refCs, hm, hs⟩
      exact ⟨refCs, (include_match_chars_iff line.toList refCs).1 hm, hs.symm⟩
    · rintro ⟨refCs, hshape, rfl⟩
      rw [(include_match_chars_iff line.toList refCs).2 hshape]
      rfl
  · intro ctx fuel current_dir line s hmatch
    simp only [line_step, hmatch]

/-- Witness for the amended C6: a non-matching line passes through the line
step unchanged. -/
theorem claim_C6_directive_shape_witness :
    line_step ctxC (process_file ctxC 2) ⟨true, ["r"]⟩ "int x;" init_state =
      (Except.ok ["int x;"], init_state) :=
  claim_C6_directive_shape.2 ctxC 2 ⟨true, ["r"]⟩ "int x;" init_state (by decide)

/-- Counterexample to C6 as stated: the match is anchored at the start of the
line, so a directive preceded by a single space is NOT recognised (the claim
says leading whitespace is allowed) and passes through unchanged; the same
directive with no leading whitespace is recognised.  Moreover mismatched
delimiters are accepted (`#include <b.h"` is recognised, against the claim's
"matching pair"). -/
theorem claim_C6_counterexample :
    include_match " #include \"b.h\"" = none ∧
    include_match "#include \"b.h\"" = some "b.h" ∧
    include_match "#include <b.h\"" = some "b.h" ∧
    line_step ctxC (process_file ctxC 2) ⟨true, ["r"]⟩ " #include \"b.h\"" init_state =
      (Except.ok [" #include \"b.h\""], init_state) :=
  ⟨by decide, by decide, by decide, by rfl⟩

theorem line_step_ok (ctx : CppFusioner)
    (rec : FPath → FuseState → Except FuseError ProcessedFile × FuseState)
    (current_dir : FPath) (stk : List FPath) (line : String) (s : FuseState)
    (hs : s.processing_stack = stk)
    (hline : ∀ (include_name : String) (cand : FPath),
      include_match line = some include_name →
      line_has_angle line = false →
      find_include_file ctx include_name current_dir = some cand →
      inline_policy ctx include_name cand →
      ∀ s₃ : FuseState, s₃.processing_stack = stk →
        ∃ pf s₄, rec cand s₃ = (Except.ok pf, s₄) ∧ s₄.processing_stack = stk) :
    ∃ out s₂, line_step ctx rec current_dir line s = (Except.ok out, s₂) ∧
      s₂.processing_stack = stk := by
  simp only [line_step]
  cases hm : include_match line with
  | none => exact ⟨[line], s, rfl, hs⟩
  | some include_name =>
    dsimp only
    cases hangle : line_has_angle line with
    | true => simp only [if_pos]; exact ⟨[line], s, rfl, hs⟩
    | false =>
      simp only [Bool.false_eq_true, if_false]
      simp only [quote_include_step]
      cases hfind : find_include_file ctx include_name current_dir with
      | none =>
        simp only [opt_mem_inlined, Bool.false_eq_true, if_false]
        exact ⟨[line], s, rfl, hs⟩
      | some q =>
        by_cases hq : q ∈ s.already_inlined
        · have hmem : opt_mem_inlined (some q) s.already_inlined = true := by
            simp [opt_mem_inlined, hq]
          rw [hmem]
          simp only [if_pos]
          exact ⟨[], s, rfl, hs⟩
        · have hmem : opt_mem_inlined (some q) s.already_inlined = false := by
            simp [opt_mem_inlined, hq]
          rw [hmem]
          simp only [Bool.false_eq_true, if_false]
          by_cases hA : ctx.inline_headers ∧ get_file_type q = FileType.HEADER
          · rw [if_pos hA]
            rcases hline include_name q hm hangle hfind (Or.inl hA) s hs with ⟨pf, s₄, hok, hstk4⟩
            unfold do_inline
            rw [hok]
            exact ⟨_, _, rfl, hstk4⟩
          · rw [if_neg hA]
            by_cases hB : ctx.inline_sources ∧ (get_file_type q = FileType.SOURCE ∨
                include_name = "src/gtest-internal-inl.h" ∨ include_name = "gtest/gtest-spi.h")
            · rw [if_pos hB]
              rcases hline include_name q hm hangle hfind (Or.inr hB) s hs with ⟨pf, s₄, hok, hstk4⟩
              unfold do_inline
              rw [hok]
              exact ⟨_, _, rfl, hstk4⟩
            · rw [if_neg hB]
              by_cases hG : starts_with_chars "gtest/".toList include_name.toList ∧
                  include_name ≠ "gtest/gtest.h"
              · rw [if_pos hG]
                exact ⟨_, s, rfl, hs⟩
              · rw [if_neg hG]
                exact ⟨_, s, rfl, hs⟩

theorem process_lines_ok (ctx : CppFusioner)
    (rec : FPath → FuseState → Except FuseError ProcessedFile × FuseState)
    (current_dir : FPath) (stk : List FPath) :
    ∀ (lines : List String) (s : FuseState),
      s.processing_stack = stk →
      (∀ line ∈ lines, ∀ (include_name : String) (cand : FPath),
        include_match line = some include_name →
        line_has_angle line = false →
        find_include_file ctx include_name current_dir = some cand →
        inline_policy ctx include_name cand →
        ∀ s₃ : FuseState, s₃.processing_stack = stk →
          ∃ pf s₄, rec cand s₃ = (Except.ok pf, s₄) ∧ s₄.processing_stack = stk) →
      ∃ outs s₂, process_lines ctx rec current_dir lines s = (Except.ok outs, s₂) ∧
        s₂.processing_stack = stk := by
  intro lines
  induction lines with
  | nil => intro s hs _; exact ⟨[], s, rfl, hs⟩
  | cons line rest ih =>
    intro s hs hline
    rcases line_step_ok ctx rec current_dir stk line s hs
        (hline line (List.mem_cons_self line rest)) with ⟨out, s₁, hstep, hstk1⟩
    rcases ih s₁ hstk1
        (fun l hl => hline l (List.mem_cons_of_mem line hl)) with ⟨outs, s₂, hrest, hstk2⟩
    refine ⟨out ++ outs, s₂, ?_, hstk2⟩
    simp only [process_lines]
    rw [hstep]
    dsimp only
    rw [hrest]

theorem process_file_acyclic_ok (ctx : CppFusioner) (rank : FPath → Nat)
    (hedge : ∀ p q, IncludeEdge ctx p q → rank q < rank p)
    (hread : ∀ p q, IncludeEdge ctx p q → (ctx.fs.read q).isSome = true) :
    ∀ (fuel : Nat) (file_path : FPath) (s : FuseState),
      (ctx.fs.read (resolve_path ctx.cwd file_path)).isSome = true →
      (∀ x ∈ s.processing_stack, rank (resolve_path ctx.cwd file_path) < rank x) →
      rank (resolve_path ctx.cwd file_path) < fuel →
      ∃ pf s₂, process_file ctx fuel file_path s = (Except.ok pf, s₂) ∧
        s₂.processing_stack = s.processing_stack := by
  intro fuel
  induction fuel with
  | zero => intro p s _ _ hlt; omega
  | succ fuel ih =>
    intro p s hreadp hstk hlt
    have hnotmem : resolve_path ctx.cwd p ∉ s.processing_stack := fun hmem =>
      lt_irrefl _ (hstk (resolve_path ctx.cwd p) hmem)
    simp only [process_file]
    rw [if_neg hnotmem]
    simp only [process_file_body]
    cases hread2 : ctx.fs.read (resolve_path ctx.cwd p) with
    | none => rw [hread2] at hreadp; simp at hreadp
    | some content =>
      have hlines := process_lines_ok ctx (process_file ctx fuel)
        (resolve_path ctx.cwd p).parent (resolve_path ctx.cwd p :: s.processing_stack)
        (split_lines content)
        ⟨resolve_path ctx.cwd p :: s.processing_stack, s.already_inlined⟩ rfl ?hline
      case hline =>
        intro line hlinemem include_name cand hm hangle hfind hpol s₃ hs₃
        have hedge1 : IncludeEdge ctx (resolve_path ctx.cwd p) (resolve_path ctx.cwd cand) :=
          ⟨content, line, include_name, cand, hread2, hlinemem, hm, hangle, hfind, hpol, rfl⟩
        have hlt2 : rank (resolve_path ctx.cwd cand) < rank (resolve_path ctx.cwd p) :=
          hedge _ _ hedge1
        have hread3 := hread _ _ hedge1
        have hstk2 : ∀ x ∈ s₃.processing_stack, rank (resolve_path ctx.cwd cand) < rank x := by
          rw [hs₃]
          intro x hx
          rcases List.mem_cons.1 hx with rfl | hx2
          · exact hlt2
          · exact lt_trans hlt2 (hstk x hx2)
        have hfuel2 : rank (resolve_path ctx.cwd cand) < fuel := by omega
        rcases ih cand s₃ hread3 hstk2 hfuel2 with ⟨pf, s₄, hok, hstk4⟩
        exact ⟨pf, s₄, hok, by rw [hstk4, hs₃]⟩
      rcases hlines with ⟨outs, s₂, hl, hstk2⟩
      dsimp only
      rw [hl]
      refine ⟨_, _, rfl, ?_⟩
      dsimp only
      rw [hstk2, List.erase_cons_head]

/-- Claim C3: termination and stack restoration on acyclic graphs.  If the
include-graph edges (`IncludeEdge`) admit a strictly decreasing rank —
i.e. the graph reached by recursion is acyclic — and every edge target is
readable, then from a fresh (empty) stack and enough fuel `process_file`
returns a `ProcessedFile` (no error, in particular the fuel bound of the
embedding is never hit, so the source recursion terminates) and the
`processing_stack` is empty again on return. -/
theorem claim_C3_acyclic_terminates :
    ∀ (ctx : CppFusioner) (rank : FPath → Nat),
      (∀ p q, IncludeEdge ctx p q → rank q < rank p) →
      (∀ p q, IncludeEdge ctx p q → (ctx.fs.read q).isSome = true) →
      ∀ (fuel : Nat) (file_path : FPath) (s : FuseState),
        (ctx.fs.read (resolve_path ctx.cwd file_path)).isSome = true →
        s.processing_stack = [] →
        rank (resolve_path ctx.cwd file_path) < fuel →
        (process_file ctx fuel file_path s).1.isOk = true ∧
        ((process_file ctx fuel file_path s).2).processing_stack = [] := by
  intro ctx rank hedge hread fuel file_path s hreadp hstk hlt
  rcases process_file_acyclic_ok ctx rank hedge hread fuel file_path s hreadp
      (by rw [hstk]; intro x hx; exact absurd hx (List.not_mem_nil x)) hlt
    with ⟨pf, s₂, hok, hstk2⟩
  rw [hok]
  exact ⟨rfl, by rw [hstk2, hstk]⟩

theorem no_edge_ctx3 (p q : FPath) : ¬ IncludeEdge ctx3 p q := by
  rintro ⟨c, line, include_name, cand, hr, hl, hm, -, -, -, -⟩
  have hc : c = "" := by
    by_cases hp : p = pC3
    · subst hp
      have : fs3.read pC3 = some "" := rfl
      rw [show ctx3.fs = fs3 from rfl, this] at hr
      exact (Option.some.injEq _ _ ▸ hr.symm :)
    · have : fs3.read p = none := by simp [fs3, hp]
      rw [show ctx3.fs = fs3 from rfl, this] at hr
      cases hr
  subst hc
  have hline : line = "" := by
    have : split_lines "" = [""] := rfl
    rw [this] at hl
    simpa using hl
  subst hline
  have hnone : include_match "" = none := rfl
  rw [hnone] at hm
  cases hm

/-- Witness for C3: on the single-file filesystem (one empty file, no edges,
constant rank zero) the run returns a `ProcessedFile` and the stack is empty
on return. -/
theorem claim_C3_acyclic_terminates_witness :
    (process_file ctx3 1 pC3 init_state).1.isOk = true ∧
    ((process_file ctx3 1 pC3 init_state).2).processing_stack = [] :=
  claim_C3_acyclic_terminates ctx3 (fun _ => 0)
    (fun p q h => absurd h (no_edge_ctx3 p q))
    (fun p q h => absurd h (no_edge_ctx3 p q))
    1 pC3 init_state (by decide) rfl (by decide)
